import Mathlib

/-!
Shallow embedding of `hangups/user.py`: the `User` name-resolution logic and
the `UserList` registry, translated from the Python source.

Modelling conventions:
- Python strings that may be `None` become `Option String`; Python truthiness
  of an optional string (`if not full_name`) becomes `optTruthy`.
- `str.isalpha` / `str.isspace` per character become `Char.isAlpha` /
  `Char.isWhitespace` (ASCII approximation of the Python predicates).
- `str.split()` (split on whitespace, dropping empty pieces) becomes
  `pySplitWS`.
- The Python `dict` `{UserID: User}` becomes an association list with
  in-place update and append-on-new semantics (`dictInsert` / `dictGet`).
- Mutating methods become state-passing functions: a method that can change
  the `UserList` returns the new `UserList` together with its return value.
- The event subscription is modelled by applying `UserList.on_state_update`
  to each delivered `StateUpdate` in order (`UserList.process_events`).
-/

/-- `DEFAULT_NAME = 'Unknown'` from the source. -/
def DEFAULT_NAME : String := "Unknown"

/-- `NameType = enum.IntEnum('NameType', dict(DEFAULT=0, NUMERIC=1, REAL=2))`. -/
inductive NameType where
  | DEFAULT
  | NUMERIC
  | REAL
deriving DecidableEq, Repr

/-- Integer value of a `NameType`, as in the Python `IntEnum`;
comparisons between name types in the source are comparisons of these values. -/
def NameType.val : NameType → Nat
  | .DEFAULT => 0
  | .NUMERIC => 1
  | .REAL => 2

/-- `UserID = namedtuple('UserID', ['chat_id', 'gaia_id'])`. -/
structure UserID where
  chat_id : String
  gaia_id : String
deriving DecidableEq, Repr

/-- A chat user: the attributes set by `User.__init__`. -/
structure User where
  id_ : UserID
  full_name : String
  first_name : String
  name_type : NameType
  photo_url : Option String
  emails : List String
  is_self : Bool
deriving DecidableEq, Repr

/-- Python truthiness of an optional string: `None` and `''` are falsy. -/
def optTruthy : Option String → Bool
  | none => false
  | some s => decide (s ≠ "")

/-- `any(c.isalpha() for c in s)`. -/
def strHasAlpha (s : String) : Bool :=
  s.data.any Char.isAlpha

/-- Helper for `pySplitWS`: splits a character list into maximal runs of
non-whitespace characters; `acc` holds the current run, reversed. -/
def wordsAux : List Char → List Char → List (List Char)
  | [], acc => if acc = [] then [] else [acc.reverse]
  | c :: cs, acc =>
    if c.isWhitespace then
      if acc = [] then wordsAux cs [] else acc.reverse :: wordsAux cs []
    else
      wordsAux cs (c :: acc)

/-- Python `s.split()`: split on whitespace runs, dropping empty pieces. -/
def pySplitWS (s : String) : List String :=
  (wordsAux s.data []).map String.mk

/-- `User.__init__`: resolve the display name by the three-branch precedence
of the source (empty → DEFAULT sentinel; no alphabetic character → NUMERIC
verbatim; otherwise REAL, deriving `first_name` from `full_name` when the
supplied one is falsy), then store the remaining attributes unchanged. -/
def User.init (user_id : UserID) (full_name first_name photo_url : Option String)
    (emails : List String) (is_self : Bool) : User :=
  if optTruthy full_name = false then
    { id_ := user_id,
      full_name := DEFAULT_NAME,
      first_name := DEFAULT_NAME,
      name_type := NameType.DEFAULT,
      photo_url := photo_url,
      emails := emails,
      is_self := is_self }
  else if strHasAlpha (full_name.getD "") = false then
    { id_ := user_id,
      full_name := full_name.getD "",
      first_name := full_name.getD "",
      name_type := NameType.NUMERIC,
      photo_url := photo_url,
      emails := emails,
      is_self := is_self }
  else
    let fn := if optTruthy full_name then full_name.getD "" else DEFAULT_NAME
    { id_ := user_id,
      full_name := fn,
      first_name := if optTruthy first_name then first_name.getD ""
                    else (pySplitWS fn).headD "",
      name_type := NameType.REAL,
      photo_url := photo_url,
      emails := emails,
      is_self := is_self }

/-- `User.upgrade_name`: if the other user's name type is strictly greater,
take over its `full_name`, `first_name` and `name_type`; otherwise no-op. -/
def User.upgrade_name (self user_ : User) : User :=
  if user_.name_type.val > self.name_type.val then
    { self with
      full_name := user_.full_name,
      first_name := user_.first_name,
      name_type := user_.name_type }
  else
    self

/-- The identity pair carried by `entity.id` / `conv_part_data.id`. -/
structure PartId where
  chat_id : String
  gaia_id : String
deriving DecidableEq, Repr

/-- The fields of `entity.properties` read by `User.from_entity`. -/
structure EntityProperties where
  display_name : Option String
  first_name : Option String
  photo_url : Option String
  email : List String
deriving DecidableEq, Repr

/-- The fields of an `Entity` read by `User.from_entity`. -/
structure Entity where
  id : PartId
  properties : EntityProperties
deriving DecidableEq, Repr

/-- The fields of a `ConversationParticipantData` read by
`User.from_conv_part_data`. -/
structure ConvPartData where
  id : PartId
  fallback_name : Option String
deriving DecidableEq, Repr

/-- `User.from_entity`: build the `UserID` from the entity's identity pair,
pass the entity's properties through, and derive `is_self` as
`(self_user_id == user_id) or (self_user_id is None)`. -/
def User.from_entity (entity : Entity) (self_user_id : Option UserID) : User :=
  let user_id : UserID := ⟨entity.id.chat_id, entity.id.gaia_id⟩
  User.init user_id entity.properties.display_name entity.properties.first_name
    entity.properties.photo_url entity.properties.email
    (decide (self_user_id = some user_id) || decide (self_user_id = none))

/-- `User.from_conv_part_data`: only the fallback display name is available;
first name, photo and emails are absent. -/
def User.from_conv_part_data (conv_part_data : ConvPartData)
    (self_user_id : Option UserID) : User :=
  let user_id : UserID := ⟨conv_part_data.id.chat_id, conv_part_data.id.gaia_id⟩
  User.init user_id conv_part_data.fallback_name none none []
    (decide (self_user_id = some user_id) || decide (self_user_id = none))

/-- The registry's `{UserID: User}` dictionary, as an association list. -/
abbrev UserDict := List (UserID × User)

/-- Dictionary lookup: first (and, with unique keys, only) binding of the key. -/
def dictGet : UserDict → UserID → Option User
  | [], _ => none
  | p :: rest, k => if p.1 = k then some p.2 else dictGet rest k

/-- Dictionary assignment `d[k] = v`: replace the binding in place if the key
is present, otherwise append a new binding. -/
def dictInsert : UserDict → UserID → User → UserDict
  | [], k, v => [(k, v)]
  | p :: rest, k, v =>
    if p.1 = k then (k, v) :: rest else p :: dictInsert rest k v

/-- The state of a `UserList`: the self user and the user dictionary.
(The client handle is only used for the event subscription, which is
modelled by `UserList.process_events`.) -/
structure UserList where
  self_user : User
  user_dict : UserDict
deriving DecidableEq, Repr

/-- `UserList.add_user_from_conv_part`: build a candidate from the fallback
record; insert it if the id is new, otherwise upgrade the existing user in
place. Returns the new registry state together with the returned user. -/
def UserList.add_user_from_conv_part (ul : UserList) (conv_part : ConvPartData) :
    UserList × User :=
  let user_ := User.from_conv_part_data conv_part (some ul.self_user.id_)
  match dictGet ul.user_dict user_.id_ with
  | none =>
    ({ ul with user_dict := dictInsert ul.user_dict user_.id_ user_ }, user_)
  | some existing =>
    let upgraded := existing.upgrade_name user_
    ({ ul with user_dict := dictInsert ul.user_dict user_.id_ upgraded }, upgraded)

/-- `UserList.__init__`: build the self user (with `self_user_id = None`),
seed the dictionary with it, insert a user for each entity, then add each
conversation participant through the add-or-upgrade path. -/
def UserList.init (self_entity : Entity) (entities : List Entity)
    (conv_parts : List ConvPartData) : UserList :=
  let self_user := User.from_entity self_entity none
  let d0 : UserDict := [(self_user.id_, self_user)]
  let d1 := entities.foldl
    (fun d entity =>
      let user_ := User.from_entity entity (some self_user.id_)
      dictInsert d user_.id_ user_) d0
  conv_parts.foldl (fun ul p => (ul.add_user_from_conv_part p).1)
    { self_user := self_user, user_dict := d1 }

/-- `UserList.get_user`: return the registered user, or synthesize a
throwaway `User` with `DEFAULT_NAME` for an unknown id. Returns the (always
unchanged) registry state alongside, making the absence of mutation explicit. -/
def UserList.get_user (ul : UserList) (user_id : UserID) : User × UserList :=
  match dictGet ul.user_dict user_id with
  | some u => (u, ul)
  | none => (User.init user_id (some DEFAULT_NAME) none none [] false, ul)

/-- `UserList.get_all`: all registered users. -/
def UserList.get_all (ul : UserList) : List User :=
  ul.user_dict.map Prod.snd

/-- `conversation.participant_data` as read by `_handle_conversation`. -/
structure Conversation where
  participant_data : List ConvPartData
deriving DecidableEq, Repr

/-- A `StateUpdate`: `HasField('conversation')` becomes an `Option`. -/
structure StateUpdate where
  conversation : Option Conversation
deriving DecidableEq, Repr

/-- `UserList._handle_conversation`: add-or-upgrade each participant. -/
def UserList.handle_conversation (ul : UserList) (conversation : Conversation) :
    UserList :=
  conversation.participant_data.foldl
    (fun u p => (u.add_user_from_conv_part p).1) ul

/-- `UserList._on_state_update`: process the conversation payload if present,
otherwise do nothing. -/
def UserList.on_state_update (ul : UserList) (state_update : StateUpdate) :
    UserList :=
  match state_update.conversation with
  | some conversation => ul.handle_conversation conversation
  | none => ul

/-- Delivery of a sequence of state-update events to the subscribed handler. -/
def UserList.process_events (ul : UserList) (events : List StateUpdate) :
    UserList :=
  events.foldl UserList.on_state_update ul

/-- The name invariant: `full_name` and `first_name` are never empty. -/
def User.nameOk (u : User) : Prop :=
  u.full_name ≠ "" ∧ u.first_name ≠ ""

/-- The keys of a user dictionary, in order. -/
def dictKeys (d : UserDict) : List UserID :=
  d.map Prod.fst

/-- Per-key preservation: every binding of `d` is still bound in `d'`, with a
name type at least as high. -/
def DictPres (d d' : UserDict) : Prop :=
  ∀ k u, dictGet d k = some u →
    ∃ u', dictGet d' k = some u' ∧ u.name_type.val ≤ u'.name_type.val

/-- Registry invariant relative to the self user's id `sid`: keys are unique,
`sid` is bound, every user is stored under its own id, and a stored user has
`is_self` exactly when it is stored under `sid`. -/
def SelfInv (sid : UserID) (d : UserDict) : Prop :=
  (dictKeys d).Nodup ∧
  (∃ u, dictGet d sid = some u) ∧
  ∀ p ∈ d, p.2.id_ = p.1 ∧ (p.2.is_self = true ↔ p.1 = sid)

/-- `SelfInv` stated on a `UserList` with its own self user's id. -/
def UserListInv (ul : UserList) : Prop :=
  SelfInv ul.self_user.id_ ul.user_dict

/-- The candidate user that `add_user_from_conv_part` builds. -/
def candOf (ul : UserList) (cp : ConvPartData) : User :=
  User.from_conv_part_data cp (some ul.self_user.id_)

/-- A concrete id, used by the witness instances. -/
def uidW : UserID := ⟨"chat0", "gaia0"⟩

/-- A concrete DEFAULT-tier user, used by the witness instances. -/
def userDefaultW : User := User.init uidW none none none [] false

/-- A concrete REAL-tier user, used by the witness instances. -/
def userRealW : User := User.init uidW (some "John Smith") none none [] false

/-- A concrete participant record with an alphabetic fallback name. -/
def convPartW : ConvPartData := ⟨⟨"chat0", "gaia0"⟩, some "John Smith"⟩

/-- A concrete entity record, used by the witness instances. -/
def entityW : Entity := ⟨⟨"chat0", "gaia0"⟩, ⟨some "Me Myself", none, none, []⟩⟩

/-- A concrete registry with an empty dictionary, used by the witness instances. -/
def ulW : UserList := ⟨userRealW, []⟩

/-- A concrete registry whose dictionary binds `uidW`, used by the witness
instances. -/
def ulW2 : UserList := ⟨userRealW, [(uidW, userRealW)]⟩

/-! ### Character and word-splitting lemmas -/

theorem alpha_not_whitespace (c : Char) (h : c.isAlpha = true) :
    c.isWhitespace = false := by
  rcases hw : c.isWhitespace with _ | _
  · rfl
  · exfalso
    simp only [Char.isWhitespace, Bool.or_eq_true, decide_eq_true_eq] at hw
    rcases hw with ((h1 | h1) | h1) | h1 <;> subst h1 <;> exact absurd h (by decide)

theorem wordsAux_mem_ne_nil : ∀ (cs acc : List Char), ∀ l ∈ wordsAux cs acc, l ≠ []
  | [], acc => by
    intro l hl
    simp only [wordsAux] at hl
    split at hl
    · simp at hl
    · next hacc =>
      simp only [List.mem_singleton] at hl
      subst hl
      simp [hacc]
  | c :: cs, acc => by
    intro l hl
    simp only [wordsAux] at hl
    split at hl
    · split at hl
      · exact wordsAux_mem_ne_nil cs [] l hl
      · next hacc =>
        rcases List.mem_cons.mp hl with h | h
        · subst h; simp [hacc]
        · exact wordsAux_mem_ne_nil cs [] l h
    · exact wordsAux_mem_ne_nil cs (c :: acc) l hl

theorem wordsAux_ne_nil_of_acc : ∀ (cs acc : List Char), acc ≠ [] →
    wordsAux cs acc ≠ []
  | [], acc, h => by simp [wordsAux, h]
  | c :: cs, acc, h => by
    simp only [wordsAux]
    split
    · simp [h]
    · exact wordsAux_ne_nil_of_acc cs (c :: acc) (by simp)

theorem wordsAux_ne_nil_of_alpha : ∀ (cs acc : List Char),
    cs.any Char.isAlpha = true → wordsAux cs acc ≠ []
  | [], _, h => by simp at h
  | c :: cs, acc, h => by
    simp only [List.any_cons, Bool.or_eq_true] at h
    simp only [wordsAux]
    split
    · next hws =>
      rcases h with h | h
      · rw [alpha_not_whitespace c h] at hws
        exact absurd hws (by simp)
      · split
        · exact wordsAux_ne_nil_of_alpha cs [] h
        · simp
    · rcases h with h | h
      · exact wordsAux_ne_nil_of_acc cs (c :: acc) (by simp)
      · exact wordsAux_ne_nil_of_alpha cs (c :: acc) h

theorem stringMk_ne_empty (l : List Char) (h : l ≠ []) : String.mk l ≠ "" := by
  intro he
  apply h
  have hd := congrArg String.data he
  simpa using hd

theorem strHasAlpha_ne_empty (s : String) (h : strHasAlpha s = true) : s ≠ "" := by
  intro he
  subst he
  exact absurd h (by decide)

theorem pySplitWS_headD_ne_empty (s : String) (h : strHasAlpha s = true) :
    (pySplitWS s).headD "" ≠ "" := by
  unfold strHasAlpha at h
  have hne := wordsAux_ne_nil_of_alpha s.data [] h
  unfold pySplitWS
  rcases hw : wordsAux s.data [] with _ | ⟨l, t⟩
  · exact absurd hw hne
  · have hl : l ≠ [] := wordsAux_mem_ne_nil s.data [] l (hw ▸ List.mem_cons_self l t)
    simpa using stringMk_ne_empty l hl

/-! ### `User.__init__` branch lemmas -/

theorem User.init_default (uid : UserID) (fn fs pu : Option String)
    (em : List String) (b : Bool) (h : optTruthy fn = false) :
    User.init uid fn fs pu em b =
      { id_ := uid,
        full_name := DEFAULT_NAME,
        first_name := DEFAULT_NAME,
        name_type := NameType.DEFAULT,
        photo_url := pu,
        emails := em,
        is_self := b } := by
  unfold User.init
  rw [if_pos h]

theorem User.init_numeric (uid : UserID) (s : String) (fs pu : Option String)
    (em : List String) (b : Bool) (hs : s ≠ "") (ha : strHasAlpha s = false) :
    User.init uid (some s) fs pu em b =
      { id_ := uid,
        full_name := s,
        first_name := s,
        name_type := NameType.NUMERIC,
        photo_url := pu,
        emails := em,
        is_self := b } := by
  have h1 : optTruthy (some s) = true := by simp [optTruthy, hs]
  unfold User.init
  rw [if_neg (by simp [h1]), if_pos (by simpa using ha)]
  rfl

theorem User.init_real (uid : UserID) (s : String) (fs pu : Option String)
    (em : List String) (b : Bool) (ha : strHasAlpha s = true) :
    User.init uid (some s) fs pu em b =
      { id_ := uid,
        full_name := s,
        first_name := if optTruthy fs then fs.getD ""
                      else (pySplitWS s).headD "",
        name_type := NameType.REAL,
        photo_url := pu,
        emails := em,
        is_self := b } := by
  have hs : s ≠ "" := strHasAlpha_ne_empty s ha
  have h1 : optTruthy (some s) = true := by simp [optTruthy, hs]
  unfold User.init
  rw [if_neg (by simp [h1]), if_neg (by simpa using ha)]
  simp [h1]

theorem User.init_frame (uid : UserID) (fn fs pu : Option String)
    (em : List String) (b : Bool) :
    (User.init uid fn fs pu em b).id_ = uid ∧
    (User.init uid fn fs pu em b).photo_url = pu ∧
    (User.init uid fn fs pu em b).emails = em ∧
    (User.init uid fn fs pu em b).is_self = b := by
  unfold User.init
  split
  · exact ⟨rfl, rfl, rfl, rfl⟩
  · split
    · exact ⟨rfl, rfl, rfl, rfl⟩
    · exact ⟨rfl, rfl, rfl, rfl⟩

theorem User.init_nameOk (uid : UserID) (fn fs pu : Option String)
    (em : List String) (b : Bool) : (User.init uid fn fs pu em b).nameOk := by
  by_cases ht : optTruthy fn = false
  · rw [User.init_default uid fn fs pu em b ht]
    exact ⟨show DEFAULT_NAME ≠ "" by decide, show DEFAULT_NAME ≠ "" by decide⟩
  · rcases fn with _ | s
    · exact absurd rfl ht
    · have hs : s ≠ "" := by
        intro he
        exact ht (by simp [optTruthy, he])
      by_cases ha : strHasAlpha s = true
      · rw [User.init_real uid s fs pu em b ha]
        refine ⟨hs, ?_⟩
        show (if optTruthy fs then fs.getD "" else (pySplitWS s).headD "") ≠ ""
        split
        · next hfs =>
          rcases fs with _ | t
          · simp [optTruthy] at hfs
          · simpa [optTruthy] using hfs
        · exact pySplitWS_headD_ne_empty s ha
      · rw [User.init_numeric uid s fs pu em b hs (by simpa using ha)]
        exact ⟨hs, hs⟩

/-! ### `upgrade_name` lemmas -/

theorem User.upgrade_name_frame (a b : User) :
    (a.upgrade_name b).id_ = a.id_ ∧
    (a.upgrade_name b).photo_url = a.photo_url ∧
    (a.upgrade_name b).emails = a.emails ∧
    (a.upgrade_name b).is_self = a.is_self := by
  unfold User.upgrade_name
  split
  · exact ⟨rfl, rfl, rfl, rfl⟩
  · exact ⟨rfl, rfl, rfl, rfl⟩

theorem User.upgrade_name_of_gt (a b : User)
    (h : b.name_type.val > a.name_type.val) :
    a.upgrade_name b =
      { a with
        full_name := b.full_name,
        first_name := b.first_name,
        name_type := b.name_type } := by
  unfold User.upgrade_name
  rw [if_pos h]

theorem User.upgrade_name_of_le (a b : User)
    (h : b.name_type.val ≤ a.name_type.val) :
    a.upgrade_name b = a := by
  unfold User.upgrade_name
  rw [if_neg (by omega)]

theorem User.upgrade_name_val (a b : User) :
    (a.upgrade_name b).name_type.val = max a.name_type.val b.name_type.val := by
  unfold User.upgrade_name
  split
  · next h => simp only []; omega
  · next h => omega

theorem User.upgrade_name_idem (a b : User) :
    (a.upgrade_name b).upgrade_name b = a.upgrade_name b := by
  apply User.upgrade_name_of_le
  rw [User.upgrade_name_val]
  omega

theorem User.upgrade_name_nameOk (a b : User) (ha : a.nameOk) (hb : b.nameOk) :
    (a.upgrade_name b).nameOk := by
  unfold User.upgrade_name
  split
  · exact ⟨hb.1, hb.2⟩
  · exact ha

/-! ### Dictionary lemmas -/

theorem dictGet_insert_self : ∀ (d : UserDict) (k : UserID) (v : User),
    dictGet (dictInsert d k v) k = some v
  | [], k, v => by simp [dictInsert, dictGet]
  | p :: rest, k, v => by
    simp only [dictInsert]
    split
    · simp [dictGet]
    · next h =>
      simp only [dictGet, if_neg h]
      exact dictGet_insert_self rest k v

theorem dictGet_insert_ne : ∀ (d : UserDict) (k : UserID) (v : User) (j : UserID),
    j ≠ k → dictGet (dictInsert d k v) j = dictGet d j
  | [], k, v, j, h => by
    simp only [dictInsert, dictGet]
    rw [if_neg (fun e => h e.symm)]
  | p :: rest, k, v, j, h => by
    simp only [dictInsert]
    split
    · next hpk =>
      have hkj : ¬(k = j) := fun e => h e.symm
      have hpj : ¬(p.1 = j) := by rw [hpk]; exact hkj
      simp [dictGet, hkj, hpj]
    · next hpk =>
      by_cases hpj : p.1 = j
      · simp [dictGet, hpj]
      · simp only [dictGet, if_neg hpj]
        exact dictGet_insert_ne rest k v j h

theorem mem_dictInsert : ∀ (d : UserDict) (k : UserID) (v : User)
    (p : UserID × User), p ∈ dictInsert d k v → p = (k, v) ∨ p ∈ d
  | [], k, v, p, h => by
    simp [dictInsert] at h
    exact Or.inl h
  | q :: rest, k, v, p, h => by
    simp only [dictInsert] at h
    split at h
    · rcases List.mem_cons.mp h with h1 | h1
      · exact Or.inl h1
      · exact Or.inr (List.mem_cons_of_mem q h1)
    · rcases List.mem_cons.mp h with h1 | h1
      · exact Or.inr (h1 ▸ List.mem_cons_self q rest)
      · rcases mem_dictInsert rest k v p h1 with h2 | h2
        · exact Or.inl h2
        · exact Or.inr (List.mem_cons_of_mem q h2)

theorem dictGet_mem : ∀ (d : UserDict) (k : UserID) (u : User),
    dictGet d k = some u → (k, u) ∈ d
  | [], k, u, h => by simp [dictGet] at h
  | q :: rest, k, u, h => by
    simp only [dictGet] at h
    split at h
    · next hqk =>
      injection h with h2
      have : (k, u) = q := by
        rw [← hqk, ← h2]
      rw [this]
      exact List.mem_cons_self q rest
    · exact List.mem_cons_of_mem q (dictGet_mem rest k u h)

theorem mem_dictKeys_insert (d : UserDict) (k : UserID) (v : User) (j : UserID)
    (h : j ∈ dictKeys (dictInsert d k v)) : j ∈ dictKeys d ∨ j = k := by
  rcases List.mem_map.mp h with ⟨p, hp, hpj⟩
  rcases mem_dictInsert d k v p hp with h1 | h1
  · right
    rw [← hpj, h1]
  · exact Or.inl (List.mem_map.mpr ⟨p, h1, hpj⟩)

theorem dictKeys_insert_nodup : ∀ (d : UserDict) (k : UserID) (v : User),
    (dictKeys d).Nodup → (dictKeys (dictInsert d k v)).Nodup
  | [], k, v, _ => by simp [dictInsert, dictKeys]
  | p :: rest, k, v, h => by
    simp only [dictInsert]
    split
    · next hpk =>
      simp only [dictKeys, List.map_cons, List.nodup_cons] at h ⊢
      exact ⟨by rw [← hpk]; exact h.1, h.2⟩
    · next hpk =>
      simp only [dictKeys, List.map_cons, List.nodup_cons] at h ⊢
      refine ⟨?_, dictKeys_insert_nodup rest k v h.2⟩
      intro hmem
      rcases mem_dictKeys_insert rest k v p.1 hmem with h1 | h1
      · exact h.1 h1
      · exact hpk h1

theorem mem_eq_of_nodup_keys : ∀ (d : UserDict), (dictKeys d).Nodup →
    ∀ p q : UserID × User, p ∈ d → q ∈ d → p.1 = q.1 → p = q
  | [], _, p, q, hp, _, _ => by simp at hp
  | r :: rest, h, p, q, hp, hq, hpq => by
    simp only [dictKeys, List.map_cons, List.nodup_cons] at h
    rcases List.mem_cons.mp hp with hp1 | hp1 <;>
      rcases List.mem_cons.mp hq with hq1 | hq1
    · rw [hp1, hq1]
    · exfalso
      apply h.1
      have hqm : q.1 ∈ dictKeys rest := List.mem_map.mpr ⟨q, hq1, rfl⟩
      rw [← hp1, hpq]
      exact hqm
    · exfalso
      apply h.1
      have hpm : p.1 ∈ dictKeys rest := List.mem_map.mpr ⟨p, hp1, rfl⟩
      rw [← hq1, ← hpq]
      exact hpm
    · exact mem_eq_of_nodup_keys rest h.2 p q hp1 hq1 hpq

theorem dictPres_refl (d : UserDict) : DictPres d d :=
  fun _ u h => ⟨u, h, le_rfl⟩

theorem dictPres_trans (d1 d2 d3 : UserDict) (h12 : DictPres d1 d2)
    (h23 : DictPres d2 d3) : DictPres d1 d3 := by
  intro k u h
  rcases h12 k u h with ⟨u2, hu2, hle2⟩
  rcases h23 k u2 hu2 with ⟨u3, hu3, hle3⟩
  exact ⟨u3, hu3, le_trans hle2 hle3⟩

theorem foldlPreserves {α β : Type} (P : α → Prop) (f : α → β → α)
    (hf : ∀ a b, P a → P (f a b)) : ∀ (l : List β) (a : α), P a → P (l.foldl f a)
  | [], _, h => h
  | b :: l, a, h => foldlPreserves P f hf l (f a b) (hf a b h)

theorem foldlRel {α β : Type} (R : α → α → Prop) (f : α → β → α)
    (hrefl : ∀ a, R a a) (htrans : ∀ x y z, R x y → R y z → R x z)
    (hstep : ∀ a b, R a (f a b)) : ∀ (l : List β) (a : α), R a (l.foldl f a)
  | [], a => hrefl a
  | b :: l, a =>
    htrans _ _ _ (hstep a b) (foldlRel R f hrefl htrans hstep l (f a b))

/-! ### Constructor field lemmas -/

theorem User.from_entity_fields (e : Entity) (sid : Option UserID) :
    (User.from_entity e sid).id_ = ⟨e.id.chat_id, e.id.gaia_id⟩ ∧
    (User.from_entity e sid).is_self =
      (decide (sid = some (⟨e.id.chat_id, e.id.gaia_id⟩ : UserID)) ||
        decide (sid = none)) := by
  unfold User.from_entity
  exact ⟨(User.init_frame _ _ _ _ _ _).1, (User.init_frame _ _ _ _ _ _).2.2.2⟩

theorem User.from_conv_part_fields (cp : ConvPartData) (sid : Option UserID) :
    (User.from_conv_part_data cp sid).id_ = ⟨cp.id.chat_id, cp.id.gaia_id⟩ ∧
    (User.from_conv_part_data cp sid).photo_url = none ∧
    (User.from_conv_part_data cp sid).emails = [] ∧
    (User.from_conv_part_data cp sid).is_self =
      (decide (sid = some (⟨cp.id.chat_id, cp.id.gaia_id⟩ : UserID)) ||
        decide (sid = none)) := by
  unfold User.from_conv_part_data
  exact ⟨(User.init_frame _ _ _ _ _ _).1, (User.init_frame _ _ _ _ _ _).2.1,
    (User.init_frame _ _ _ _ _ _).2.2.1, (User.init_frame _ _ _ _ _ _).2.2.2⟩

theorem User.from_entity_is_self_some (e : Entity) (sid : UserID) :
    (User.from_entity e (some sid)).is_self =
      decide ((User.from_entity e (some sid)).id_ = sid) := by
  rw [(User.from_entity_fields e (some sid)).2,
    (User.from_entity_fields e (some sid)).1]
  simp [eq_comm]

theorem User.from_entity_is_self_none (e : Entity) :
    (User.from_entity e none).is_self = true := by
  rw [(User.from_entity_fields e none).2]
  simp

theorem User.from_conv_part_is_self_some (cp : ConvPartData) (sid : UserID) :
    (User.from_conv_part_data cp (some sid)).is_self =
      decide ((User.from_conv_part_data cp (some sid)).id_ = sid) := by
  rw [(User.from_conv_part_fields cp (some sid)).2.2.2,
    (User.from_conv_part_fields cp (some sid)).1]
  simp [eq_comm]

/-! ### `add_user_from_conv_part` lemmas -/

theorem addUser_none (ul : UserList) (cp : ConvPartData)
    (h : dictGet ul.user_dict (candOf ul cp).id_ = none) :
    ul.add_user_from_conv_part cp =
      ({ ul with
          user_dict := dictInsert ul.user_dict (candOf ul cp).id_ (candOf ul cp) },
        candOf ul cp) := by
  unfold candOf at h ⊢
  simp only [UserList.add_user_from_conv_part, h]

theorem addUser_some (ul : UserList) (cp : ConvPartData) (ex : User)
    (h : dictGet ul.user_dict (candOf ul cp).id_ = some ex) :
    ul.add_user_from_conv_part cp =
      ({ ul with
          user_dict := dictInsert ul.user_dict (candOf ul cp).id_
            (ex.upgrade_name (candOf ul cp)) },
        ex.upgrade_name (candOf ul cp)) := by
  unfold candOf at h ⊢
  simp only [UserList.add_user_from_conv_part, h]

theorem addUser_self_user (ul : UserList) (cp : ConvPartData) :
    (ul.add_user_from_conv_part cp).1.self_user = ul.self_user := by
  rcases h : dictGet ul.user_dict (candOf ul cp).id_ with _ | ex
  · rw [addUser_none ul cp h]
  · rw [addUser_some ul cp ex h]

theorem addUser_dictPres (ul : UserList) (cp : ConvPartData) :
    DictPres ul.user_dict (ul.add_user_from_conv_part cp).1.user_dict := by
  intro k u hk
  rcases h : dictGet ul.user_dict (candOf ul cp).id_ with _ | ex
  · rw [addUser_none ul cp h]
    by_cases hkc : k = (candOf ul cp).id_
    · subst hkc
      rw [hk] at h
      cases h
    · refine ⟨u, ?_, le_rfl⟩
      show dictGet (dictInsert ul.user_dict (candOf ul cp).id_ (candOf ul cp)) k = some u
      rw [dictGet_insert_ne _ _ _ _ hkc]
      exact hk
  · rw [addUser_some ul cp ex h]
    by_cases hkc : k = (candOf ul cp).id_
    · subst hkc
      rw [hk] at h
      injection h with he
      subst he
      refine ⟨u.upgrade_name (candOf ul cp), ?_, ?_⟩
      · show dictGet (dictInsert ul.user_dict (candOf ul cp).id_
          (u.upgrade_name (candOf ul cp))) (candOf ul cp).id_ = _
        rw [dictGet_insert_self]
      · rw [User.upgrade_name_val]
        omega
    · refine ⟨u, ?_, le_rfl⟩
      show dictGet (dictInsert ul.user_dict (candOf ul cp).id_
        (ex.upgrade_name (candOf ul cp))) k = some u
      rw [dictGet_insert_ne _ _ _ _ hkc]
      exact hk

/-! ### Registry invariant through construction -/

theorem selfInv_base (se : Entity) :
    SelfInv (User.from_entity se none).id_
      [((User.from_entity se none).id_, User.from_entity se none)] := by
  refine ⟨by simp [dictKeys], ⟨User.from_entity se none, ?_⟩, ?_⟩
  · simp [dictGet]
  · intro p hp
    simp only [List.mem_singleton] at hp
    subst hp
    exact ⟨rfl, by simp [User.from_entity_is_self_none]⟩

theorem selfInv_insert_entity (sid : UserID) (d : UserDict) (e : Entity)
    (h : SelfInv sid d) :
    SelfInv sid (dictInsert d (User.from_entity e (some sid)).id_
      (User.from_entity e (some sid))) := by
  obtain ⟨hnd, ⟨su, hsu⟩, hall⟩ := h
  have hself : (User.from_entity e (some sid)).is_self =
      decide ((User.from_entity e (some sid)).id_ = sid) :=
    User.from_entity_is_self_some e sid
  set u := User.from_entity e (some sid) with hu
  refine ⟨dictKeys_insert_nodup _ _ _ hnd, ?_, ?_⟩
  · by_cases hc : sid = u.id_
    · refine ⟨u, ?_⟩
      rw [hc]
      exact dictGet_insert_self d u.id_ u
    · refine ⟨su, ?_⟩
      rw [dictGet_insert_ne d u.id_ u sid hc]
      exact hsu
  · intro p hp
    rcases mem_dictInsert d u.id_ u p hp with h1 | h1
    · subst h1
      exact ⟨rfl, by simp [hself]⟩
    · exact hall p h1

theorem addUser_inv (ul : UserList) (cp : ConvPartData) (h : UserListInv ul) :
    UserListInv (ul.add_user_from_conv_part cp).1 := by
  obtain ⟨hnd, ⟨su, hsu⟩, hall⟩ := h
  have hcself : (candOf ul cp).is_self =
      decide ((candOf ul cp).id_ = ul.self_user.id_) :=
    User.from_conv_part_is_self_some cp ul.self_user.id_
  rcases hg : dictGet ul.user_dict (candOf ul cp).id_ with _ | ex
  · rw [addUser_none ul cp hg]
    refine ⟨dictKeys_insert_nodup _ _ _ hnd, ?_, ?_⟩
    · by_cases hc : ul.self_user.id_ = (candOf ul cp).id_
      · refine ⟨candOf ul cp, ?_⟩
        show dictGet (dictInsert ul.user_dict (candOf ul cp).id_ (candOf ul cp))
          ul.self_user.id_ = _
        rw [hc]
        exact dictGet_insert_self _ _ _
      · refine ⟨su, ?_⟩
        show dictGet (dictInsert ul.user_dict (candOf ul cp).id_ (candOf ul cp))
          ul.self_user.id_ = _
        rw [dictGet_insert_ne _ _ _ _ hc]
        exact hsu
    · intro p hp
      rcases mem_dictInsert _ _ _ _ hp with h1 | h1
      · subst h1
        exact ⟨rfl, by simp [hcself]⟩
      · exact hall p h1
  · rw [addUser_some ul cp ex hg]
    have hexall := hall _ (dictGet_mem _ _ _ hg)
    have hupid : (ex.upgrade_name (candOf ul cp)).id_ = ex.id_ :=
      (User.upgrade_name_frame _ _).1
    have hupself : (ex.upgrade_name (candOf ul cp)).is_self = ex.is_self :=
      (User.upgrade_name_frame _ _).2.2.2
    refine ⟨dictKeys_insert_nodup _ _ _ hnd, ?_, ?_⟩
    · by_cases hc : ul.self_user.id_ = (candOf ul cp).id_
      · refine ⟨ex.upgrade_name (candOf ul cp), ?_⟩
        show dictGet (dictInsert ul.user_dict (candOf ul cp).id_
          (ex.upgrade_name (candOf ul cp))) ul.self_user.id_ = _
        rw [hc]
        exact dictGet_insert_self _ _ _
      · refine ⟨su, ?_⟩
        show dictGet (dictInsert ul.user_dict (candOf ul cp).id_
          (ex.upgrade_name (candOf ul cp))) ul.self_user.id_ = _
        rw [dictGet_insert_ne _ _ _ _ hc]
        exact hsu
    · intro p hp
      rcases mem_dictInsert _ _ _ _ hp with h1 | h1
      · subst h1
        refine ⟨?_, ?_⟩
        · show (ex.upgrade_name (candOf ul cp)).id_ = (candOf ul cp).id_
          rw [hupid]
          exact hexall.1
        · show (ex.upgrade_name (candOf ul cp)).is_self = true ↔
            (candOf ul cp).id_ = ul.self_user.id_
          rw [hupself]
          exact hexall.2
      · exact hall p h1

theorem userListInit_self (se : Entity) (es : List Entity)
    (cps : List ConvPartData) :
    (UserList.init se es cps).self_user = User.from_entity se none := by
  unfold UserList.init
  exact foldlPreserves (fun ul : UserList => ul.self_user = User.from_entity se none)
    (fun ul p => (ul.add_user_from_conv_part p).1)
    (fun a b hab => by
      show ((a.add_user_from_conv_part b).1).self_user = User.from_entity se none
      rw [addUser_self_user]
      exact hab) cps _ rfl

theorem userListInit_inv (se : Entity) (es : List Entity)
    (cps : List ConvPartData) : UserListInv (UserList.init se es cps) := by
  unfold UserList.init
  refine foldlPreserves UserListInv _ (fun a b hab => addUser_inv a b hab) cps _ ?_
  show UserListInv ⟨User.from_entity se none, _⟩
  refine foldlPreserves (SelfInv (User.from_entity se none).id_) _ ?_ es _
    (selfInv_base se)
  intro d e hd
  exact selfInv_insert_entity _ d e hd

/-! ### Event-stream preservation -/

theorem handleConv_dictPres (ul : UserList) (c : Conversation) :
    DictPres ul.user_dict (ul.handle_conversation c).user_dict := by
  unfold UserList.handle_conversation
  exact foldlRel (fun a b => DictPres a.user_dict b.user_dict) _
    (fun a => dictPres_refl _) (fun x y z => dictPres_trans _ _ _)
    (fun a b => addUser_dictPres a b) c.participant_data ul

theorem onStateUpdate_dictPres (ul : UserList) (su : StateUpdate) :
    DictPres ul.user_dict (ul.on_state_update su).user_dict := by
  rcases su with ⟨_ | c⟩
  · exact dictPres_refl _
  · exact handleConv_dictPres ul c

theorem processEvents_dictPres (ul : UserList) (events : List StateUpdate) :
    DictPres ul.user_dict (ul.process_events events).user_dict := by
  unfold UserList.process_events
  exact foldlRel (fun a b => DictPres a.user_dict b.user_dict) _
    (fun a => dictPres_refl _) (fun x y z => dictPres_trans _ _ _)
    (fun a b => onStateUpdate_dictPres a b) events ul

/-! ### Claims -/

/-- Claim C1: in `User.__init__`, a `full_name` with at least one alphabetic
character yields `name_type = REAL`; a non-empty `full_name` with no
alphabetic character yields `name_type = NUMERIC` with `full_name` and
`first_name` equal to the supplied value verbatim; an empty or absent
`full_name` yields `full_name = first_name = DEFAULT_NAME` and
`name_type = DEFAULT`. -/
theorem claim_C1 (uid : UserID) (full first photo : Option String)
    (em : List String) (b : Bool) :
    (∀ s, full = some s → strHasAlpha s = true →
      (User.init uid full first photo em b).name_type = NameType.REAL) ∧
    (∀ s, full = some s → s ≠ "" → strHasAlpha s = false →
      (User.init uid full first photo em b).name_type = NameType.NUMERIC ∧
      (User.init uid full first photo em b).full_name = s ∧
      (User.init uid full first photo em b).first_name = s) ∧
    ((full = none ∨ full = some "") →
      (User.init uid full first photo em b).full_name = DEFAULT_NAME ∧
      (User.init uid full first photo em b).first_name = DEFAULT_NAME ∧
      (User.init uid full first photo em b).name_type = NameType.DEFAULT) := by
  refine ⟨?_, ?_, ?_⟩
  · intro s hfull ha
    subst hfull
    rw [User.init_real uid s first photo em b ha]
  · intro s hfull hs ha
    subst hfull
    rw [User.init_numeric uid s first photo em b hs ha]
    exact ⟨rfl, rfl, rfl⟩
  · intro hor
    have ht : optTruthy full = false := by
      rcases hor with h1 | h1 <;> subst h1 <;> decide
    rw [User.init_default uid full first photo em b ht]
    exact ⟨rfl, rfl, rfl⟩

/-- Witness for C1 at concrete inputs: an alphabetic name, a phone number,
and an absent name. -/
theorem claim_C1_witness :
    (User.init uidW (some "John Smith") none none [] false).name_type =
      NameType.REAL ∧
    (User.init uidW (some "+12125551212") none none [] false).name_type =
      NameType.NUMERIC ∧
    (User.init uidW none none none [] false).name_type = NameType.DEFAULT :=
  ⟨(claim_C1 uidW (some "John Smith") none none [] false).1 "John Smith" rfl
      (by decide),
    ((claim_C1 uidW (some "+12125551212") none none [] false).2.1 "+12125551212"
      rfl (by decide) (by decide)).1,
    ((claim_C1 uidW none none none [] false).2.2 (Or.inl rfl)).2.2⟩

/-- Claim C2: `upgrade_name` replaces the three name fields exactly when the
other user's name type is strictly greater, is a no-op otherwise, yields
`name_type = max` of the two, and a second identical upgrade changes
nothing. -/
theorem claim_C2 (a b : User) :
    (b.name_type.val > a.name_type.val →
      (a.upgrade_name b).full_name = b.full_name ∧
      (a.upgrade_name b).first_name = b.first_name ∧
      (a.upgrade_name b).name_type = b.name_type) ∧
    (¬ b.name_type.val > a.name_type.val → a.upgrade_name b = a) ∧
    (a.upgrade_name b).name_type.val = max a.name_type.val b.name_type.val ∧
    (a.upgrade_name b).upgrade_name b = a.upgrade_name b := by
  refine ⟨?_, ?_, User.upgrade_name_val a b, User.upgrade_name_idem a b⟩
  · intro h
    rw [User.upgrade_name_of_gt a b h]
    exact ⟨rfl, rfl, rfl⟩
  · intro h
    exact User.upgrade_name_of_le a b (by omega)

/-- Witness for C2: a DEFAULT-tier user upgraded by a REAL-tier user takes
the better name; the reverse upgrade is a no-op. -/
theorem claim_C2_witness :
    (userDefaultW.upgrade_name userRealW).full_name = userRealW.full_name ∧
    userRealW.upgrade_name userDefaultW = userRealW :=
  ⟨((claim_C2 userDefaultW userRealW).1 (by decide)).1,
    (claim_C2 userRealW userDefaultW).2.1 (by decide)⟩

/-- Counterexample to claim C3 as stated: the participant fallback
constructor applied to `fallback_name = "John Smith"` produces a user whose
`name_type` is neither DEFAULT nor NUMERIC (it is REAL). -/
theorem claim_C3_counterexample :
    ¬ ((User.from_conv_part_data convPartW none).name_type = NameType.DEFAULT ∨
       (User.from_conv_part_data convPartW none).name_type = NameType.NUMERIC) := by
  decide

/-- Claim C3 (amended): a user built by `from_conv_part_data` has `name_type`
DEFAULT when `fallback_name` is empty or absent, NUMERIC when it is non-empty
with no alphabetic character, and REAL when it contains an alphabetic
character. -/
theorem claim_C3_amended (cp : ConvPartData) (sid : Option UserID) :
    ((cp.fallback_name = none ∨ cp.fallback_name = some "") →
      (User.from_conv_part_data cp sid).name_type = NameType.DEFAULT) ∧
    (∀ s, cp.fallback_name = some s → s ≠ "" → strHasAlpha s = false →
      (User.from_conv_part_data cp sid).name_type = NameType.NUMERIC) ∧
    (∀ s, cp.fallback_name = some s → strHasAlpha s = true →
      (User.from_conv_part_data cp sid).name_type = NameType.REAL) := by
  unfold User.from_conv_part_data
  refine ⟨?_, ?_, ?_⟩
  · intro hor
    have ht : optTruthy cp.fallback_name = false := by
      rcases hor with h1 | h1 <;> rw [h1] <;> decide
    rw [User.init_default _ _ _ _ _ _ ht]
  · intro s hfull hs ha
    rw [hfull, User.init_numeric _ s _ _ _ _ hs ha]
  · intro s hfull ha
    rw [hfull, User.init_real _ s _ _ _ _ ha]

/-- Witness for the amended C3 at concrete inputs: absent, numeric-only and
alphabetic fallback names. -/
theorem claim_C3_amended_witness :
    (User.from_conv_part_data ⟨⟨"c1", "g1"⟩, none⟩ none).name_type =
      NameType.DEFAULT ∧
    (User.from_conv_part_data ⟨⟨"c1", "g1"⟩, some "+1212"⟩ none).name_type =
      NameType.NUMERIC ∧
    (User.from_conv_part_data ⟨⟨"c1", "g1"⟩, some "Ann"⟩ none).name_type =
      NameType.REAL :=
  ⟨(claim_C3_amended ⟨⟨"c1", "g1"⟩, none⟩ none).1 (Or.inl rfl),
    (claim_C3_amended ⟨⟨"c1", "g1"⟩, some "+1212"⟩ none).2.1 "+1212" rfl
      (by decide) (by decide),
    (claim_C3_amended ⟨⟨"c1", "g1"⟩, some "Ann"⟩ none).2.2 "Ann" rfl (by decide)⟩

/-- Claim C4: `get_user` is total (it returns a user for every id and never
mutates the registry), and for an id absent from the dictionary it returns a
synthesized user with `full_name = DEFAULT_NAME`, no photo, no emails and
`is_self = false`, leaving the stored dictionary unchanged. -/
theorem claim_C4 (ul : UserList) (user_id : UserID)
    (h : dictGet ul.user_dict user_id = none) :
    (∀ j : UserID, (ul.get_user j).2 = ul) ∧
    (ul.get_user user_id).1.full_name = DEFAULT_NAME ∧
    (ul.get_user user_id).1.photo_url = none ∧
    (ul.get_user user_id).1.emails = [] ∧
    (ul.get_user user_id).1.is_self = false ∧
    (ul.get_user user_id).2.user_dict = ul.user_dict := by
  have hu : ul.get_user user_id =
      (User.init user_id (some DEFAULT_NAME) none none [] false, ul) := by
    unfold UserList.get_user
    rw [h]
  have hr := User.init_real user_id DEFAULT_NAME none none [] false (by decide)
  refine ⟨?_, ?_, ?_, ?_, ?_, ?_⟩
  · intro j
    unfold UserList.get_user
    rcases dictGet ul.user_dict j with _ | u <;> rfl
  · rw [hu]
    show (User.init user_id (some DEFAULT_NAME) none none [] false).full_name = _
    rw [hr]
  · rw [hu]
    show (User.init user_id (some DEFAULT_NAME) none none [] false).photo_url = _
    rw [hr]
  · rw [hu]
    show (User.init user_id (some DEFAULT_NAME) none none [] false).emails = _
    rw [hr]
  · rw [hu]
    show (User.init user_id (some DEFAULT_NAME) none none [] false).is_self = _
    rw [hr]
  · rw [hu]

/-- Witness for C4 at a registry with an empty dictionary. -/
theorem claim_C4_witness :
    (ulW.get_user uidW).1.full_name = DEFAULT_NAME ∧
    (ulW.get_user uidW).2.user_dict = ulW.user_dict :=
  ⟨(claim_C4 ulW uidW rfl).2.1, (claim_C4 ulW uidW rfl).2.2.2.2.2⟩

/-- Claim C10: the placeholder user synthesized by `get_user` for an
unregistered id has `name_type = REAL` (not DEFAULT) and
`first_name = DEFAULT_NAME`, because `DEFAULT_NAME` is passed explicitly as
`full_name` and contains alphabetic characters. -/
theorem claim_C10 (ul : UserList) (user_id : UserID)
    (h : dictGet ul.user_dict user_id = none) :
    (ul.get_user user_id).1.name_type = NameType.REAL ∧
    (ul.get_user user_id).1.first_name = DEFAULT_NAME ∧
    ¬ (ul.get_user user_id).1.name_type = NameType.DEFAULT := by
  have hu : ul.get_user user_id =
      (User.init user_id (some DEFAULT_NAME) none none [] false, ul) := by
    unfold UserList.get_user
    rw [h]
  have hr := User.init_real user_id DEFAULT_NAME none none [] false (by decide)
  refine ⟨?_, ?_, ?_⟩
  · rw [hu]
    show (User.init user_id (some DEFAULT_NAME) none none [] false).name_type = _
    rw [hr]
  · rw [hu]
    show (User.init user_id (some DEFAULT_NAME) none none [] false).first_name = _
    rw [hr]
    show (if optTruthy none = true then (none : Option String).getD ""
      else (pySplitWS DEFAULT_NAME).headD "") = DEFAULT_NAME
    decide
  · rw [hu]
    show ¬ (User.init user_id (some DEFAULT_NAME) none none [] false).name_type =
      NameType.DEFAULT
    rw [hr]
    show ¬ NameType.REAL = NameType.DEFAULT
    decide

/-- Witness for C10 at a registry with an empty dictionary. -/
theorem claim_C10_witness :
    (ulW.get_user uidW).1.name_type = NameType.REAL ∧
    (ulW.get_user uidW).1.first_name = DEFAULT_NAME :=
  ⟨(claim_C10 ulW uidW rfl).1, (claim_C10 ulW uidW rfl).2.1⟩

/-- Claim C5: `add_user_from_conv_part` inserts the fallback candidate as-is
and returns it when the id is new; when a user already exists for that id, it
stores and returns that user upgraded by the candidate, and the returned
user's `id_`, `photo_url`, `emails` and `is_self` are unchanged from the
existing user. -/
theorem claim_C5 (ul : UserList) (cp : ConvPartData) :
    (dictGet ul.user_dict (candOf ul cp).id_ = none →
      (ul.add_user_from_conv_part cp).2 = candOf ul cp ∧
      (ul.add_user_from_conv_part cp).1.user_dict =
        dictInsert ul.user_dict (candOf ul cp).id_ (candOf ul cp) ∧
      dictGet (ul.add_user_from_conv_part cp).1.user_dict (candOf ul cp).id_ =
        some (candOf ul cp)) ∧
    (∀ ex, dictGet ul.user_dict (candOf ul cp).id_ = some ex →
      (ul.add_user_from_conv_part cp).2 = ex.upgrade_name (candOf ul cp) ∧
      (ul.add_user_from_conv_part cp).1.user_dict =
        dictInsert ul.user_dict (candOf ul cp).id_
          (ex.upgrade_name (candOf ul cp)) ∧
      (ul.add_user_from_conv_part cp).2.id_ = ex.id_ ∧
      (ul.add_user_from_conv_part cp).2.photo_url = ex.photo_url ∧
      (ul.add_user_from_conv_part cp).2.emails = ex.emails ∧
      (ul.add_user_from_conv_part cp).2.is_self = ex.is_self) := by
  constructor
  · intro h
    rw [addUser_none ul cp h]
    exact ⟨rfl, rfl, dictGet_insert_self _ _ _⟩
  · intro ex h
    rw [addUser_some ul cp ex h]
    exact ⟨rfl, rfl, (User.upgrade_name_frame _ _).1,
      (User.upgrade_name_frame _ _).2.1, (User.upgrade_name_frame _ _).2.2.1,
      (User.upgrade_name_frame _ _).2.2.2⟩

/-- Witness for C5: a new id is inserted and returned as-is; an existing id
is upgraded in place with its `is_self` unchanged. -/
theorem claim_C5_witness :
    (ulW.add_user_from_conv_part convPartW).2 = candOf ulW convPartW ∧
    (ulW2.add_user_from_conv_part convPartW).2.is_self =
      userRealW.is_self :=
  ⟨((claim_C5 ulW convPartW).1 (by decide)).1,
    ((claim_C5 ulW2 convPartW).2 userRealW (by decide)).2.2.2.2.2⟩

/-- Claim C6: after `UserList.__init__` from any self entity, entity batch and
participant batch, exactly one stored user has `is_self = true`, and any
stored user with `is_self = true` is stored under the self user's id and
carries that id. -/
theorem claim_C6 (se : Entity) (es : List Entity) (cps : List ConvPartData) :
    (∃! p : UserID × User,
      p ∈ (UserList.init se es cps).user_dict ∧ p.2.is_self = true) ∧
    ∀ p ∈ (UserList.init se es cps).user_dict, p.2.is_self = true →
      p.1 = (UserList.init se es cps).self_user.id_ ∧
      p.2.id_ = (UserList.init se es cps).self_user.id_ := by
  obtain ⟨hnd, ⟨su, hsu⟩, hall⟩ := userListInit_inv se es cps
  have hsumem : ((UserList.init se es cps).self_user.id_, su) ∈
      (UserList.init se es cps).user_dict := dictGet_mem _ _ _ hsu
  have hsuself : su.is_self = true := (hall _ hsumem).2.mpr rfl
  constructor
  · refine ⟨((UserList.init se es cps).self_user.id_, su), ⟨hsumem, hsuself⟩, ?_⟩
    intro q hq
    have hq1 : q.1 = (UserList.init se es cps).self_user.id_ :=
      (hall q hq.1).2.mp hq.2
    exact mem_eq_of_nodup_keys _ hnd q _ hq.1 hsumem hq1
  · intro p hp hpself
    have hp1 : p.1 = (UserList.init se es cps).self_user.id_ :=
      (hall p hp).2.mp hpself
    exact ⟨hp1, by rw [(hall p hp).1, hp1]⟩

/-- Witness for C6: the registry built from a single entity record. -/
theorem claim_C6_witness :
    (uidW, User.from_entity entityW none).1 =
      (UserList.init entityW [] []).self_user.id_ ∧
    (uidW, User.from_entity entityW none).2.id_ =
      (UserList.init entityW [] []).self_user.id_ :=
  (claim_C6 entityW [] []).2 (uidW, User.from_entity entityW none)
    (by decide) (by decide)

/-- Claim C7: an event without a conversation payload leaves the registry
unchanged; an event with one applies add-or-upgrade for each participant;
across any event sequence, every registered id keeps a binding and its
`name_type` never decreases. -/
theorem claim_C7 (ul : UserList) (events : List StateUpdate) :
    (∀ su : StateUpdate, su.conversation = none → ul.on_state_update su = ul) ∧
    (∀ (su : StateUpdate) (c : Conversation), su.conversation = some c →
      ul.on_state_update su =
        c.participant_data.foldl (fun u p => (u.add_user_from_conv_part p).1) ul) ∧
    (∀ (k : UserID) (u : User), dictGet ul.user_dict k = some u →
      ∃ u', dictGet (ul.process_events events).user_dict k = some u' ∧
        u.name_type.val ≤ u'.name_type.val) := by
  refine ⟨?_, ?_, ?_⟩
  · intro su h
    rcases su with ⟨_ | c⟩
    · rfl
    · simp at h
  · intro su c h
    rcases su with ⟨_ | c'⟩
    · simp at h
    · simp only [Option.some.injEq] at h
      subst h
      rfl
  · intro k u h
    exact processEvents_dictPres ul events k u h

/-- Witness for C7: a payload-free event is a no-op, and delivering one
conversation event to a concrete registry preserves the registered user's
name tier. -/
theorem claim_C7_witness :
    ulW2.on_state_update ⟨none⟩ = ulW2 ∧
    ∃ u', dictGet (ulW2.process_events
        [⟨some ⟨[convPartW]⟩⟩]).user_dict uidW = some u' ∧
      userRealW.name_type.val ≤ u'.name_type.val :=
  ⟨(claim_C7 ulW2 [⟨some ⟨[convPartW]⟩⟩]).1 ⟨none⟩ rfl,
    (claim_C7 ulW2 [⟨some ⟨[convPartW]⟩⟩]).2.2 uidW userRealW (by decide)⟩

/-- Claim C8: `upgrade_name` never changes `id_`, `photo_url`, `emails` or
`is_self`; if it changes the user at all, the other user's name type was
strictly greater. -/
theorem claim_C8 (a b : User) :
    (a.upgrade_name b).id_ = a.id_ ∧
    (a.upgrade_name b).photo_url = a.photo_url ∧
    (a.upgrade_name b).emails = a.emails ∧
    (a.upgrade_name b).is_self = a.is_self ∧
    (a.upgrade_name b ≠ a → b.name_type.val > a.name_type.val) := by
  refine ⟨(User.upgrade_name_frame a b).1, (User.upgrade_name_frame a b).2.1,
    (User.upgrade_name_frame a b).2.2.1, (User.upgrade_name_frame a b).2.2.2, ?_⟩
  intro hne
  by_contra hgt
  exact hne (User.upgrade_name_of_le a b (by omega))

/-- Witness for C8: upgrading a DEFAULT-tier user by a REAL-tier user changes
it, so the strict inequality holds; the frame fields are unchanged. -/
theorem claim_C8_witness :
    userRealW.name_type.val > userDefaultW.name_type.val ∧
    (userDefaultW.upgrade_name userRealW).id_ = userDefaultW.id_ :=
  ⟨(claim_C8 userDefaultW userRealW).2.2.2.2 (by decide),
    (claim_C8 userDefaultW userRealW).1⟩

/-- Claim C9: every user produced by `__init__`, `from_entity` or
`from_conv_part_data` has non-empty `full_name` and `first_name`; the
invariant is preserved by `upgrade_name`; with no usable name both fields are
`DEFAULT_NAME` and the type is DEFAULT; and in the REAL case with no explicit
first name, `first_name` is the first whitespace-delimited token of
`full_name` and is non-empty. -/
theorem claim_C9 :
    (∀ (uid : UserID) (fn fs pu : Option String) (em : List String) (b : Bool),
      (User.init uid fn fs pu em b).nameOk) ∧
    (∀ (e : Entity) (sid : Option UserID), (User.from_entity e sid).nameOk) ∧
    (∀ (cp : ConvPartData) (sid : Option UserID),
      (User.from_conv_part_data cp sid).nameOk) ∧
    (∀ a b : User, a.nameOk → b.nameOk → (a.upgrade_name b).nameOk) ∧
    (∀ (uid : UserID) (fn fs pu : Option String) (em : List String) (b : Bool),
      optTruthy fn = false →
      (User.init uid fn fs pu em b).full_name = DEFAULT_NAME ∧
      (User.init uid fn fs pu em b).first_name = DEFAULT_NAME ∧
      (User.init uid fn fs pu em b).name_type = NameType.DEFAULT) ∧
    (∀ (uid : UserID) (s : String) (fs pu : Option String) (em : List String)
      (b : Bool), strHasAlpha s = true → optTruthy fs = false →
      (User.init uid (some s) fs pu em b).first_name =
        (pySplitWS s).headD "" ∧
      (User.init uid (some s) fs pu em b).first_name ≠ "") := by
  refine ⟨User.init_nameOk, ?_, ?_, User.upgrade_name_nameOk, ?_, ?_⟩
  · intro e sid
    unfold User.from_entity
    exact User.init_nameOk _ _ _ _ _ _
  · intro cp sid
    unfold User.from_conv_part_data
    exact User.init_nameOk _ _ _ _ _ _
  · intro uid fn fs pu em b ht
    rw [User.init_default uid fn fs pu em b ht]
    exact ⟨rfl, rfl, rfl⟩
  · intro uid s fs pu em b ha hfs
    rw [User.init_real uid s fs pu em b ha]
    have hif : (if optTruthy fs = true then fs.getD ""
        else (pySplitWS s).headD "") = (pySplitWS s).headD "" := by
      rw [if_neg (by rw [hfs]; exact Bool.false_ne_true)]
    constructor
    · show (if optTruthy fs = true then fs.getD ""
        else (pySplitWS s).headD "") = (pySplitWS s).headD ""
      exact hif
    · show (if optTruthy fs = true then fs.getD ""
        else (pySplitWS s).headD "") ≠ ""
      rw [hif]
      exact pySplitWS_headD_ne_empty s ha

/-- Witness for C9: the invariant is preserved at concrete users, and the
REAL case derives the first token of a two-word name. -/
theorem claim_C9_witness :
    (userDefaultW.upgrade_name userRealW).nameOk ∧
    (User.init uidW (some "John Smith") none none [] false).first_name =
      (pySplitWS "John Smith").headD "" :=
  ⟨(claim_C9).2.2.2.1 userDefaultW userRealW ⟨by decide, by decide⟩
      ⟨by decide, by decide⟩,
    ((claim_C9).2.2.2.2.2 uidW "John Smith" none none [] false (by decide)
      (by decide)).1⟩
